import Mathlib

/-!
Shallow embedding of the manifest acquisition pipeline of `ManifestService`
(the manifest service of the SteamKotakLegends client): the ledger of
installed games (`installed.json`), the archive validation and the two
extract-and-install paths, the HTTP dispatch of `downloadManifest`, the
removal flow, and the `disableAutoUpdate` post-install hook.

File-system effects are modelled explicitly: the ledger file is a
`StoreFile`, the installed destination files are a list of path strings, and
extraction directories are a list of directory path strings.  Copy failures
(`copyFileSync` throwing) are modelled by a `copyOk` oracle on destination
paths.
-/

namespace ManifestService

/-- models `path.join` on Windows: concatenation with a single backslash. -/
def pjoin (a b : String) : String := a ++ "\\" ++ b

def STEAM_PATH : String := "C:\\Program Files (x86)\\Steam"

def STPLUGIN_PATH : String := pjoin (pjoin STEAM_PATH "config") "stplug-in"

def DEPOTCACHE_PATH : String := pjoin (pjoin STEAM_PATH "config") "depotcache"

/-- the userData root returned by the framework is machine dependent; modelled as an abstract
constant root. -/
def USER_DATA_PATH : String := "userData"

def MANIFEST_CACHE_PATH : String := pjoin USER_DATA_PATH "manifests"

/-- the per-id extraction directory `path.join(MANIFEST_CACHE_PATH, appId)`. -/
def extractPathOf (appId : String) : String := pjoin MANIFEST_CACHE_PATH appId

/-- one `{ path, type }` entry of an `InstalledGame`'s file list. -/
structure InstalledFile where
  path : String
  type : String
deriving DecidableEq

/-- the `InstalledGame` interface: one ledger record. -/
structure InstalledGame where
  appId : String
  name : String
  files : List InstalledFile
  installedAt : String
deriving DecidableEq

/-- The persisted `installed.json` ledger file: absent on disk, present but
unparsable (`JSON.parse` throws), or a parsed list of records. -/
inductive StoreFile where
  | absent
  | corrupt
  | ok (games : List InstalledGame)
deriving DecidableEq

/-- models `ManifestService.getInstalledGames`: `[]` when the storage file is absent
(`existsSync` false) or when `JSON.parse` throws; otherwise the parsed list. -/
def getInstalledGames : StoreFile → List InstalledGame
  | .absent => []
  | .corrupt => []
  | .ok games => games

/-- The environment the service mutates: the ledger file, the set of installed
destination files on disk, and the extraction directories under
`MANIFEST_CACHE_PATH`. -/
structure St where
  store : StoreFile
  disk : List String
  extractDirs : List String
deriving DecidableEq

/-- models `ManifestService.addToInstalledGames`: drop any record with the same
`appId`, append the new record, and persist the whole collection
(`writeFileSync` of the full list). -/
def addToInstalledGames (game : InstalledGame) (store : StoreFile) : StoreFile :=
  let games := getInstalledGames store
  let filtered := games.filter (fun g => !(g.appId == game.appId))
  .ok (filtered ++ [game])

/-- result shape of `removeGame`. -/
structure RemoveResult where
  success : Bool
  error : Option String
deriving DecidableEq

/-- models `ManifestService.removeGame`: look the record up; if absent return the
not-found failure and touch nothing.  Otherwise delete each listed file that
exists (`existsSync` guard; a missing file is skipped), persist the collection
with the record excluded, and remove the per-id extraction directory if it
exists (`rmSync` recursive + force). -/
def removeGame (appId : String) (st : St) : RemoveResult × St :=
  let games := getInstalledGames st.store
  match games.find? (fun g => g.appId == appId) with
  | none => (⟨false, some "Game not found in installed list"⟩, st)
  | some game =>
    let disk' := game.files.foldl (fun d f => d.filter (fun p => !(p == f.path))) st.disk
    let filtered := games.filter (fun g => !(g.appId == appId))
    let dirs' :=
      if extractPathOf appId ∈ st.extractDirs then
        st.extractDirs.filter (fun p => !(p == extractPathOf appId))
      else st.extractDirs
    (⟨true, none⟩, ⟨.ok filtered, disk', dirs'⟩)

/-- One entry of an extracted directory tree.  A `file`'s `jsonName` is
`some n` when `JSON.parse` of its content succeeds and the object carries a
string field `name` with value `n`; it is `none` when parsing throws or the
field is missing. -/
inductive FSEntry where
  | file (name : String) (jsonName : Option String)
  | dir (name : String) (entries : List FSEntry)

/-- helper of `extnameL`: the suffix of the name from its last dot, if any. -/
def extAfterLastDot : List Char → Option (List Char)
  | [] => none
  | c :: rest =>
    match extAfterLastDot rest with
    | some e => some e
    | none => if c == '.' then some (c :: rest) else none

/-- models `path.extname`: the extension from the last dot, where a dot that is the
first character of the name does not begin an extension (dotfiles have no
extension in Node). -/
def extnameL (l : List Char) : List Char :=
  match l with
  | [] => []
  | _ :: rest =>
    match extAfterLastDot rest with
    | some e => e
    | none => []

/-- models `path.extname(name).toLowerCase()`. -/
def extLower (name : String) : String :=
  String.mk ((extnameL name.toList).map Char.toLower)

/-- The destination rule shared by both install paths:
`.lua`/`.vdf` go to the stplug-in directory (type `lua`/`vdf`), `.manifest`
goes to the depotcache directory (type `manifest`), anything else is ignored.
Returns the destination path and the recorded `type` string. -/
def classifyName (item : String) : Option (String × String) :=
  let ext := extLower item
  if ext == ".lua" || ext == ".vdf" then
    some (pjoin STPLUGIN_PATH item, if ext == ".lua" then "lua" else "vdf")
  else if ext == ".manifest" then
    some (pjoin DEPOTCACHE_PATH item, "manifest")
  else none

/-- The recursive `findFiles` walk of `extractAndInstallKernelos`: descend
into subdirectories, copy each recognized file to its destination (`copyOk`
tells whether `copyFileSync` succeeds; a failed copy is logged and skipped),
accumulating the copied `{path, type}` entries in traversal order.  The walk
never reads `.json` side files. -/
def findFiles (copyOk : String → Bool) : List FSEntry → List InstalledFile
  | [] => []
  | .file n _ :: rest =>
    (match classifyName n with
     | some (dest, ty) => if copyOk dest then [⟨dest, ty⟩] else []
     | none => []) ++ findFiles copyOk rest
  | .dir _ es :: rest => findFiles copyOk es ++ findFiles copyOk rest

/-- all file names of a tree, depth-first in traversal order (specification
side: what the recursive walk visits). -/
def allFileNames : List FSEntry → List String
  | [] => []
  | .file n _ :: rest => n :: allFileNames rest
  | .dir _ es :: rest => allFileNames es ++ allFileNames rest

/-- What the AdmZip library does with a file handed to it: throws with a
message, or yields the extracted directory tree. -/
inductive ZipParse where
  | err (msg : String)
  | tree (entries : List FSEntry)

/-- A downloaded payload on disk: the leading bytes as read into the 4-byte
zero-filled buffer (`Buffer.alloc(4)` + `readSync`), and what AdmZip does with
the file. -/
structure ZipFile where
  bytes : List Nat
  parsed : ZipParse

/-- The magic-byte validation of `extractAndInstallKernelos`: invalid when
`buffer[0] !== 0x50 || buffer[1] !== 0x4B`; this is its negation. -/
def validZip (bytes : List Nat) : Bool :=
  bytes.getD 0 0 == 0x50 && bytes.getD 1 0 == 0x4B

/-- the `ManifestResult` interface. -/
structure ManifestResult where
  success : Bool
  appId : Option String
  name : Option String
  error : Option String
deriving DecidableEq

/-- outcome of an install path: the returned `ManifestResult`, the environment
after the call, and whether control reached the zip library
(`new AdmZip` / `extractAllTo`). -/
structure InstallOut where
  res : ManifestResult
  st : St
  extractionAttempted : Bool
deriving DecidableEq

/-- models that `copyFileSync` to `p` creates (or overwrites) the destination file. -/
def addPath (disk : List String) (p : String) : List String :=
  if p ∈ disk then disk else disk ++ [p]

def addPaths (disk : List String) (files : List InstalledFile) : List String :=
  files.foldl (fun d f => addPath d f.path) disk

/-- models `existsSync` and `readdirSync` on the expected extracted folder: look an
entry of the extraction root up by name. -/
def findEntry (name : String) : List FSEntry → Option FSEntry
  | [] => none
  | .file n j :: rest => if n == name then some (.file n j) else findEntry name rest
  | .dir n es :: rest => if n == name then some (.dir n es) else findEntry name rest

/-- One iteration of the `extractAndInstall` loop over the top-level entries
of `ManifestHub-<appId>` (accumulator: copied files so far, current
`gameName`): a `.json` file with a truthy parsed `name` renames the game; a
recognized file is copied (a throwing copy is logged and skipped).  For a
subdirectory entry both `readFileSync` and `copyFileSync` throw, so it
contributes nothing — the loop does not recurse. -/
def mhStep (copyOk : String → Bool) (acc : List InstalledFile × String) :
    FSEntry → List InstalledFile × String
  | .dir _ _ => acc
  | .file n jsonName =>
    let ext := extLower n
    let name' :=
      if ext == ".json" then
        match jsonName with
        | some nm => if nm == "" then acc.2 else nm
        | none => acc.2
      else acc.2
    match classifyName n with
    | some (dest, ty) =>
      if copyOk dest then (acc.1 ++ [⟨dest, ty⟩], name') else (acc.1, name')
    | none => (acc.1, name')

/-- models `ManifestService.extractAndInstall` (the ManifestHub path), modelled from
the point where the zip has been written to disk.  AdmZip is invoked
unconditionally (no magic-byte validation on this path); its exception is
caught and reported as `Failed to extract`.  Only the top level of the
`ManifestHub-<appId>` folder is scanned, and the record is written even when
the accumulated file list is empty. -/
def extractAndInstall (appId now extractPath : String) (zip : ZipFile)
    (copyOk : String → Bool) (st : St) : InstallOut :=
  match zip.parsed with
  | .err m => ⟨⟨false, none, none, some ("Failed to extract: " ++ m)⟩, st, true⟩
  | .tree root =>
    let st1 : St := { st with extractDirs := addPath st.extractDirs extractPath }
    match findEntry ("ManifestHub-" ++ appId) root with
    | none => ⟨⟨false, none, none, some "Extracted folder not found"⟩, st1, true⟩
    | some (.file _ _) =>
      ⟨⟨false, none, none, some "Failed to extract: ENOTDIR"⟩, st1, true⟩
    | some (.dir _ entries) =>
      let acc := entries.foldl (mhStep copyOk) ([], appId)
      let game : InstalledGame := ⟨appId, acc.2, acc.1, now⟩
      ⟨⟨true, some appId, some acc.2, none⟩,
       ⟨addToInstalledGames game st1.store, addPaths st1.disk acc.1, st1.extractDirs⟩,
       true⟩

/-- models `ManifestService.extractAndInstallKernelos` (the Kernelos / Manifestor
path): checks that the zip exists, then validates the PK magic bytes before
invoking AdmZip; when the recursive walk copied nothing it fails without
touching the ledger.  `gameName` is initialised to `appId` and never
reassigned. -/
def extractAndInstallKernelos (appId now zipPath extractPath : String)
    (zipExists : Bool) (zip : ZipFile) (copyOk : String → Bool) (st : St) :
    InstallOut :=
  if !zipExists then
    ⟨⟨false, none, none, some ("ZIP file not found: " ++ zipPath)⟩, st, false⟩
  else if !(validZip zip.bytes) then
    ⟨⟨false, none, none, some ("No manifest found for App ID: " ++ appId)⟩, st, false⟩
  else
    match zip.parsed with
    | .err m => ⟨⟨false, none, none, some ("Failed to extract: " ++ m)⟩, st, true⟩
    | .tree root =>
      let st1 : St := { st with extractDirs := addPath st.extractDirs extractPath }
      let installedFiles := findFiles copyOk root
      if installedFiles.isEmpty then
        ⟨⟨false, none, none, some "No valid manifest files found in download"⟩, st1, true⟩
      else
        let game : InstalledGame := ⟨appId, appId, installedFiles, now⟩
        ⟨⟨true, some appId, some appId, none⟩,
         ⟨addToInstalledGames game st1.store, addPaths st1.disk installedFiles,
          st1.extractDirs⟩,
         true⟩

/-- One HTTP exchange as seen by `downloadManifest`'s callback: a response
carries its status code, the response obtained by re-requesting the
`location` header (when the header is present), and the body that would be
piped to the zip file — or a network error. -/
inductive Response where
  | resp (status : Nat) (location : Option Response) (body : ZipFile)
  | error (msg : String)

/-- where `downloadManifest` hands control after the HTTP exchange. -/
inductive DMOutcome where
  /-- an error result is resolved and surfaced to the caller. -/
  | fail (msg : String)
  /-- the body is piped to disk and `extractAndInstall` runs on it. -/
  | install (body : ZipFile)
  /-- control passes to `tryKernelosFallback`: the Kernelos adapter is
  consulted next and no error has been surfaced to the caller. -/
  | kernelosFallback

/-- The dispatch structure of `ManifestService.downloadManifest`: a 301/302
with a `location` header is followed by re-requesting that URL, and only a
404 on the redirected request falls through to Kernelos there; otherwise a
direct 404 falls through to Kernelos; any other response body is piped to the
zip file and handed to `extractAndInstall`. -/
def routeDownload : Response → DMOutcome
  | .error m => .fail m
  | .resp status location body =>
    match status == 301 || status == 302, location with
    | true, some target =>
      match target with
      | .error m => .fail m
      | .resp s2 _ body2 => if s2 == 404 then .kernelosFallback else .install body2
    | _, _ => if status == 404 then .kernelosFallback else .install body

/-- JS `\s` restricted to the ASCII whitespace characters (the unicode space
classes cannot occur in the `.acf` contents modelled here). -/
def isSpaceJS (c : Char) : Bool :=
  c == ' ' || c == '\t' || c == '\n' || c == '\r' || c == '\x0b' || c == '\x0c'

/-- the closing-brace character. -/
def rbrace : Char := Char.ofNat 125

/-- the literal `"AutoUpdateBehavior"` (quotes included) that
`disableAutoUpdate` searches for. -/
def aubKey : List Char := "\"AutoUpdateBehavior\"".toList

/-- the replacement text of the regex rewrite (tab tab, value 1). -/
def aubRepl : List Char := "\"AutoUpdateBehavior\"\t\t\"1\"".toList

/-- the text inserted before the last closing brace when the key is absent. -/
def aubInsert : List Char := "\t\"AutoUpdateBehavior\"\t\t\"1\"\n".toList

/-- match a literal prefix, returning the remainder after it. -/
def matchLit : List Char → List Char → Option (List Char)
  | [], l => some l
  | _ :: _, [] => none
  | p :: ps, c :: cs => if c == p then matchLit ps cs else none

/-- Match of the regex `"AutoUpdateBehavior"\s*"\d+"` at the head of the
input, returning the remainder after the match.  Maximal munch for `\s*` and
`\d+` coincides with the backtracking semantics because neither class
contains the quote character that must follow. -/
def matchAUB (l : List Char) : Option (List Char) :=
  match matchLit aubKey l with
  | none => none
  | some r1 =>
    match r1.dropWhile isSpaceJS with
    | '"' :: r3 =>
      match r3.takeWhile Char.isDigit, r3.dropWhile Char.isDigit with
      | [], _ => none
      | _ :: _, '"' :: r5 => some r5
      | _ :: _, _ => none
    | _ => none

/-- models `String.prototype.replace` with the global regex: scan left to right,
rewrite each non-overlapping match, resume after it.  `fuel` bounds the
recursion; `fuel = length` suffices because every step consumes at least one
character. -/
def replaceAUBFuel : Nat → List Char → List Char
  | 0, l => l
  | _ + 1, [] => []
  | fuel + 1, c :: rest =>
    match matchAUB (c :: rest) with
    | some r => aubRepl ++ replaceAUBFuel fuel r
    | none => c :: replaceAUBFuel fuel rest

/-- the regex rewrite `content.replace(/"AutoUpdateBehavior"\s*"\d+"/g, ...)`. -/
def replaceAUB (l : List Char) : List Char := replaceAUBFuel l.length l

/-- JS `String.prototype.includes`. -/
def containsPat (l pat : List Char) : Bool :=
  match l with
  | [] => pat.isEmpty
  | c :: rest => (matchLit pat (c :: rest)).isSome || containsPat rest pat

/-- models the lastIndexOf of the closing brace together with the two `substring`s
around it: yields `(before, after)` with `content = before ++ rbrace :: after`
split at the last closing brace, or `none` when there is no brace. -/
def lastBraceSplit : List Char → Option (List Char × List Char)
  | [] => none
  | c :: rest =>
    match lastBraceSplit rest with
    | some (b, a) => some (c :: b, a)
    | none => if c == rbrace then some ([], rest) else none

/-- models `ManifestService.disableAutoUpdate` on the content of the
`appmanifest_<appId>.acf` file: `none` means the file is absent (`existsSync`
false — a logged no-op); otherwise the content that `writeFileSync` writes
back.  The whole body runs inside try/catch, so the operation is total and
never propagates a failure. -/
def disableAutoUpdate (file : Option (List Char)) : Option (List Char) :=
  match file with
  | none => none
  | some content =>
    if containsPat content aubKey then some (replaceAUB content)
    else
      match lastBraceSplit content with
      | some (b, a) => some (b ++ aubInsert ++ rbrace :: a)
      | none => some content

/-- the records of the persisted ledger carrying a given id. -/
def recordsFor (store : StoreFile) (id : String) : List InstalledGame :=
  (getInstalledGames store).filter (fun g => g.appId == id)

/-! Section: Helper lemmas -/

theorem filter_and_length_le {α : Type} (p q : α → Bool) (l : List α) :
    (l.filter (fun a => p a && q a)).length ≤ (l.filter p).length := by
  induction l with
  | nil => simp
  | cons x xs ih =>
    by_cases hp : p x <;> by_cases hq : q x <;>
      simp [List.filter_cons, hp, hq] <;> omega

theorem foldl_delete_eq_filter (files : List InstalledFile) (disk : List String) :
    files.foldl (fun d f => d.filter (fun p => !(p == f.path))) disk =
      disk.filter (fun p => !((files.map (fun f => f.path)).contains p)) := by
  induction files generalizing disk with
  | nil => simp
  | cons f fs ih =>
    rw [List.foldl_cons, ih, List.filter_filter]
    congr 1
    funext p
    simp only [List.map_cons, List.contains_cons, Bool.not_or]
    exact Bool.and_comm _ _

/-! Section: C9 -/

/-- C9: `getInstalledGames` (the ledger's `list()`) returns the persisted
ordered record list, and degrades to the empty list — rather than failing —
both when the storage file is absent and when its content cannot be parsed;
after an upsert it returns the persisted collection in order. -/
theorem c9_list_degrades_to_empty :
    getInstalledGames .absent = [] ∧
    getInstalledGames .corrupt = [] ∧
    (∀ gs : List InstalledGame, getInstalledGames (.ok gs) = gs) ∧
    (∀ (g : InstalledGame) (store : StoreFile),
      getInstalledGames (addToInstalledGames g store) =
        (getInstalledGames store).filter (fun x => !(x.appId == g.appId)) ++ [g]) :=
  ⟨rfl, rfl, fun _ => rfl, fun _ _ => rfl⟩

/-! Section: C5 -/

/-- C5: for an id with no record in the ledger, `removeGame` returns the
not-found failure and the whole environment — ledger file, disk, extraction
directories — is unchanged; in particular the store is not rewritten (a
corrupt store file stays corrupt). -/
theorem c5_remove_missing_id (appId : String) (st : St)
    (h : (getInstalledGames st.store).find? (fun g => g.appId == appId) = none) :
    removeGame appId st = (⟨false, some "Game not found in installed list"⟩, st) := by
  simp only [removeGame, h]

theorem c5_remove_missing_id_witness :
    ((getInstalledGames (StoreFile.ok [⟨"730", "CS", [⟨"p1", "lua"⟩], "t"⟩])).find?
        (fun g => g.appId == "570") = none) ∧
    removeGame "570" ⟨.ok [⟨"730", "CS", [⟨"p1", "lua"⟩], "t"⟩], ["p1"], []⟩ =
      (⟨false, some "Game not found in installed list"⟩,
       ⟨.ok [⟨"730", "CS", [⟨"p1", "lua"⟩], "t"⟩], ["p1"], []⟩) :=
  ⟨by decide, c5_remove_missing_id "570" _ (by decide)⟩

/-! Section: C6 -/

/-- C6: an HTTP 404 on the ManifestHub request — received directly, or on the
request that re-fetches a redirect's `location` — makes `downloadManifest`
fall through to the Kernelos adapter (`tryKernelosFallback`); the dispatch
outcome is `kernelosFallback`, which is distinct from every error outcome, so
no error is surfaced to the caller at that point. -/
theorem c6_http404_fallback :
    (∀ (location : Option Response) (body : ZipFile),
      routeDownload (.resp 404 location body) = .kernelosFallback) ∧
    (∀ (loc2 : Option Response) (body body2 : ZipFile),
      routeDownload (.resp 301 (some (.resp 404 loc2 body2)) body) =
        .kernelosFallback ∧
      routeDownload (.resp 302 (some (.resp 404 loc2 body2)) body) =
        .kernelosFallback) ∧
    (∀ m, DMOutcome.kernelosFallback ≠ .fail m) :=
  ⟨fun location _ => by cases location <;> rfl,
   fun _ _ _ => ⟨rfl, rfl⟩,
   fun _ h => DMOutcome.noConfusion h⟩

/-! Section: C4 -/

theorem getInstalledGames_ok (gs : List InstalledGame) :
    getInstalledGames (.ok gs) = gs := rfl

theorem recordsFor_add_same (g : InstalledGame) (store : StoreFile) :
    recordsFor (addToInstalledGames g store) g.appId = [g] := by
  simp only [recordsFor, addToInstalledGames, getInstalledGames_ok,
    List.filter_append, List.filter_filter]
  have h1 : ∀ a : InstalledGame,
      ((a.appId == g.appId) && !(a.appId == g.appId)) = false := by
    intro a; exact Bool.and_not_self _
  simp [h1]

theorem recordsFor_add_other (g : InstalledGame) (store : StoreFile)
    (id' : String) (hne : id' ≠ g.appId) :
    (recordsFor (addToInstalledGames g store) id').length ≤
      (recordsFor store id').length := by
  have hg : (g.appId == id') = false := by
    simp only [beq_eq_false_iff_ne, ne_eq]
    exact fun h => hne h.symm
  simp only [recordsFor, addToInstalledGames, getInstalledGames_ok,
    List.filter_append, List.filter_filter]
  simp [List.filter_cons, hg]
  exact filter_and_length_le (fun a : InstalledGame => a.appId == id')
    (fun a : InstalledGame => !(a.appId == g.appId))
    (getInstalledGames store)

/-- C4: the ledger invariant "at most one record per id" is preserved by every
ledger operation.  After `addToInstalledGames g` the persisted collection
holds exactly the record `g` for `g.appId`; two upserts with the same id
leave exactly the second record; an upsert keeps every id's record count at
most one; and `removeGame` never leaves a duplicate. -/
theorem c4_ledger_unique_id (g g2 : InstalledGame) (store : StoreFile)
    (st : St) (rid id' : String)
    (hid : g2.appId = g.appId)
    (hinv1 : (recordsFor store id').length ≤ 1)
    (hinv2 : (recordsFor st.store id').length ≤ 1) :
    recordsFor (addToInstalledGames g store) g.appId = [g] ∧
    recordsFor (addToInstalledGames g2 (addToInstalledGames g store)) g.appId
      = [g2] ∧
    (recordsFor (addToInstalledGames g store) id').length ≤ 1 ∧
    (recordsFor ((removeGame rid st).2.store) id').length ≤ 1 := by
  refine ⟨recordsFor_add_same g store, ?_, ?_, ?_⟩
  · rw [← hid]; exact recordsFor_add_same g2 _
  · by_cases h : id' = g.appId
    · subst h; rw [recordsFor_add_same]; simp
    · exact le_trans (recordsFor_add_other g store id' h) hinv1
  · rcases hfind : (getInstalledGames st.store).find? (fun x => x.appId == rid)
      with _ | game
    · simpa [removeGame, hfind] using hinv2
    · simp only [removeGame, hfind, recordsFor, getInstalledGames_ok,
        List.filter_filter]
      calc ((getInstalledGames st.store).filter
              (fun a => (a.appId == id') && !(a.appId == rid))).length
          ≤ ((getInstalledGames st.store).filter
              (fun a => a.appId == id')).length :=
            filter_and_length_le _ _ _
        _ ≤ 1 := hinv2

theorem c4_ledger_unique_id_witness :
    (recordsFor (StoreFile.ok [⟨"570", "Old", [], "t0"⟩]) "570").length ≤ 1 ∧
    (recordsFor (StoreFile.ok [⟨"570", "Old", [], "t0"⟩]) "570").length ≤ 1 ∧
    (recordsFor
        (addToInstalledGames ⟨"570", "A", [], "t1"⟩
          (.ok [⟨"570", "Old", [], "t0"⟩])) "570" = [⟨"570", "A", [], "t1"⟩] ∧
      recordsFor
        (addToInstalledGames ⟨"570", "B", [], "t2"⟩
          (addToInstalledGames ⟨"570", "A", [], "t1"⟩
            (.ok [⟨"570", "Old", [], "t0"⟩]))) "570" = [⟨"570", "B", [], "t2"⟩] ∧
      (recordsFor
        (addToInstalledGames ⟨"570", "A", [], "t1"⟩
          (.ok [⟨"570", "Old", [], "t0"⟩])) "570").length ≤ 1 ∧
      (recordsFor
        ((removeGame "570" ⟨.ok [⟨"570", "Old", [], "t0"⟩], [], []⟩).2.store)
        "570").length ≤ 1) :=
  ⟨by decide, by decide,
   c4_ledger_unique_id ⟨"570", "A", [], "t1"⟩ ⟨"570", "B", [], "t2"⟩
     (.ok [⟨"570", "Old", [], "t0"⟩]) ⟨.ok [⟨"570", "Old", [], "t0"⟩], [], []⟩
     "570" "570" rfl (by decide) (by decide)⟩

/-! Section: C7 -/

/-- C7: `removeGame` on an id whose record is present succeeds even when some
listed files are already missing from disk: every listed file that is still
present is deleted, an absent listed file is skipped without error (the result
is still a success), unrelated disk files survive, and the persisted ledger
excludes the record. -/
theorem c7_remove_with_missing_files (appId : String) (st : St)
    (game : InstalledGame)
    (h : (getInstalledGames st.store).find? (fun g => g.appId == appId)
          = some game) :
    (removeGame appId st).1 = ⟨true, none⟩ ∧
    (removeGame appId st).2.disk =
      st.disk.filter
        (fun p => !((game.files.map (fun f => f.path)).contains p)) ∧
    (removeGame appId st).2.store =
      .ok ((getInstalledGames st.store).filter
        (fun g => !(g.appId == appId))) := by
  simp [removeGame, h, foldl_delete_eq_filter]

theorem c7_remove_with_missing_files_witness :
    ((getInstalledGames
        (StoreFile.ok
          [⟨"570", "Dota", [⟨"pA", "lua"⟩, ⟨"pB", "manifest"⟩, ⟨"pC", "vdf"⟩],
            "t"⟩])).find? (fun g => g.appId == "570") =
      some ⟨"570", "Dota", [⟨"pA", "lua"⟩, ⟨"pB", "manifest"⟩, ⟨"pC", "vdf"⟩], "t"⟩) ∧
    ((removeGame "570"
        ⟨.ok [⟨"570", "Dota", [⟨"pA", "lua"⟩, ⟨"pB", "manifest"⟩, ⟨"pC", "vdf"⟩], "t"⟩],
         ["pA", "pC", "keep"], []⟩).1 = ⟨true, none⟩ ∧
      (removeGame "570"
        ⟨.ok [⟨"570", "Dota", [⟨"pA", "lua"⟩, ⟨"pB", "manifest"⟩, ⟨"pC", "vdf"⟩], "t"⟩],
         ["pA", "pC", "keep"], []⟩).2.disk =
        (["pA", "pC", "keep"] : List String).filter
          (fun p =>
            !((([⟨"pA", "lua"⟩, ⟨"pB", "manifest"⟩, ⟨"pC", "vdf"⟩] :
                List InstalledFile).map (fun f => f.path)).contains p)) ∧
      (removeGame "570"
        ⟨.ok [⟨"570", "Dota", [⟨"pA", "lua"⟩, ⟨"pB", "manifest"⟩, ⟨"pC", "vdf"⟩], "t"⟩],
         ["pA", "pC", "keep"], []⟩).2.store =
        .ok ((getInstalledGames
          (StoreFile.ok
            [⟨"570", "Dota", [⟨"pA", "lua"⟩, ⟨"pB", "manifest"⟩, ⟨"pC", "vdf"⟩],
              "t"⟩])).filter (fun g => !(g.appId == "570")))) :=
  ⟨by decide,
   c7_remove_with_missing_files "570"
     ⟨.ok [⟨"570", "Dota", [⟨"pA", "lua"⟩, ⟨"pB", "manifest"⟩, ⟨"pC", "vdf"⟩], "t"⟩],
      ["pA", "pC", "keep"], []⟩
     ⟨"570", "Dota", [⟨"pA", "lua"⟩, ⟨"pB", "manifest"⟩, ⟨"pC", "vdf"⟩], "t"⟩
     (by decide)⟩

/-! Section: C1 -/

/-- C1 counterexample: on the ManifestHub path (`extractAndInstall`) an
extracted bundle whose `ManifestHub-570` folder holds only `readme.txt` — so
zero recognized files are copied — still returns success and still adds an
`InstalledGame` record (with an empty file list) to the ledger, contradicting
the claim that both install paths fail with no record on zero copied files. -/
theorem c1_counterexample_mh_records_empty :
    (extractAndInstall "570" "t0" (extractPathOf "570")
        ⟨[0x50, 0x4B, 3, 4], .tree [.dir "ManifestHub-570" [.file "readme.txt" none]]⟩
        (fun _ => true) ⟨.ok [], [], []⟩).res.success = true ∧
    (extractAndInstall "570" "t0" (extractPathOf "570")
        ⟨[0x50, 0x4B, 3, 4], .tree [.dir "ManifestHub-570" [.file "readme.txt" none]]⟩
        (fun _ => true) ⟨.ok [], [], []⟩).st.store =
      .ok [⟨"570", "570", [], "t0"⟩] := by
  decide

/-- C1 (amended): only the Kernelos/Manifestor path checks for zero copied
files: when its recursive walk copies nothing, `extractAndInstallKernelos`
returns the failure `No valid manifest files found in download` and neither
the ledger nor the disk is touched (only the extraction directory created by
unzipping exists).  The ManifestHub `extractAndInstall` path has no such
check: it reports success and records an empty file list (see the
counterexample). -/
theorem c1_amended_zero_files (appId now zipPath extractPath : String)
    (zip : ZipFile) (copyOk : String → Bool) (st : St) (root : List FSEntry)
    (hparse : zip.parsed = .tree root)
    (hvalid : validZip zip.bytes = true)
    (hempty : findFiles copyOk root = []) :
    extractAndInstallKernelos appId now zipPath extractPath true zip copyOk st =
      ⟨⟨false, none, none, some "No valid manifest files found in download"⟩,
       ⟨st.store, st.disk, addPath st.extractDirs extractPath⟩, true⟩ := by
  simp [extractAndInstallKernelos, hvalid, hparse, hempty]

theorem c1_amended_zero_files_witness :
    ((⟨[0x50, 0x4B, 3, 4], .tree [.dir "sub" [.file "readme.txt" none]]⟩ :
        ZipFile).parsed = .tree [.dir "sub" [.file "readme.txt" none]] ∧
      validZip [0x50, 0x4B, 3, 4] = true ∧
      findFiles (fun _ => true) [.dir "sub" [.file "readme.txt" none]] = []) ∧
    extractAndInstallKernelos "570" "t0" "z.zip" (extractPathOf "570") true
        ⟨[0x50, 0x4B, 3, 4], .tree [.dir "sub" [.file "readme.txt" none]]⟩
        (fun _ => true) ⟨.ok [], [], []⟩ =
      ⟨⟨false, none, none, some "No valid manifest files found in download"⟩,
       ⟨.ok [], [], addPath [] (extractPathOf "570")⟩, true⟩ :=
  ⟨⟨rfl, by decide, by simp only [findFiles]; decide⟩,
   c1_amended_zero_files "570" "t0" "z.zip" (extractPathOf "570")
     ⟨[0x50, 0x4B, 3, 4], .tree [.dir "sub" [.file "readme.txt" none]]⟩
     (fun _ => true) ⟨.ok [], [], []⟩ [.dir "sub" [.file "readme.txt" none]]
     rfl (by decide) (by simp only [findFiles]; decide)⟩

/-! Section: C3 -/

/-- C3 counterexample: a payload whose first two bytes are not `0x50 0x4B`
(here an HTML error page starting with the bytes of the characters of an
angle bracket and an exclamation mark) fails `validZip`, yet when it is
handed to the ManifestHub path `extractAndInstall`, the zip library is still
invoked — `extractionAttempted` is true — because that path performs no
magic-byte validation; the attempt merely ends in a caught exception reported
as failure.  This contradicts the claim that for every downloaded payload the
magic bytes are checked before any extraction is attempted. -/
theorem c3_counterexample_mh_no_validate :
    validZip [0x3C, 0x21, 0x44, 0x4F] = false ∧
    (extractAndInstall "570" "t0" (extractPathOf "570")
        ⟨[0x3C, 0x21, 0x44, 0x4F], .err "Invalid or unsupported zip format"⟩
        (fun _ => true) ⟨.ok [], [], []⟩).extractionAttempted = true ∧
    (extractAndInstall "570" "t0" (extractPathOf "570")
        ⟨[0x3C, 0x21, 0x44, 0x4F], .err "Invalid or unsupported zip format"⟩
        (fun _ => true) ⟨.ok [], [], []⟩).res.success = false := by
  decide

/-- C3 (amended): only the Kernelos/Manifestor path validates the leading
magic bytes before extraction: when the first two bytes are not `0x50 0x4B`,
`extractAndInstallKernelos` reports the not-found failure, never invokes the
zip library (`extractionAttempted` is false), and leaves the environment
unchanged.  The ManifestHub path instead passes the payload straight to the
zip library and reports the library's exception as failure (see the
counterexample). -/
theorem c3_amended_kernelos_magic (appId now zipPath extractPath : String)
    (zip : ZipFile) (copyOk : String → Bool) (st : St)
    (hbad : validZip zip.bytes = false) :
    extractAndInstallKernelos appId now zipPath extractPath true zip copyOk st =
      ⟨⟨false, none, none, some ("No manifest found for App ID: " ++ appId)⟩,
       st, false⟩ := by
  simp [extractAndInstallKernelos, hbad]

theorem c3_amended_kernelos_magic_witness :
    validZip [0x3C, 0x21, 0x44, 0x4F] = false ∧
    extractAndInstallKernelos "570" "t0" "z.zip" (extractPathOf "570") true
        ⟨[0x3C, 0x21, 0x44, 0x4F], .err "Invalid or unsupported zip format"⟩
        (fun _ => true) ⟨.ok [], [], []⟩ =
      ⟨⟨false, none, none, some ("No manifest found for App ID: " ++ "570")⟩,
       ⟨.ok [], [], []⟩, false⟩ :=
  ⟨by decide,
   c3_amended_kernelos_magic "570" "t0" "z.zip" (extractPathOf "570")
     ⟨[0x3C, 0x21, 0x44, 0x4F], .err "Invalid or unsupported zip format"⟩
     (fun _ => true) ⟨.ok [], [], []⟩ (by decide)⟩

/-! Section: C2 -/

/-- the recursive walk of the Kernelos path visits every file at every depth,
keeps exactly those whose name the destination rule recognizes (and whose
copy succeeds), and drops every other file. -/
theorem findFiles_eq_filterMap (copyOk : String → Bool) (es : List FSEntry) :
    findFiles copyOk es = (allFileNames es).filterMap (fun n =>
      match classifyName n with
      | some dt => if copyOk dt.1 then some ⟨dt.1, dt.2⟩ else none
      | none => none) := by
  induction es using findFiles.induct copyOk with
  | case1 => simp [findFiles, allFileNames]
  | case2 n j rest ih =>
    rcases h : classifyName n with _ | ⟨dest, ty⟩
    · simp [findFiles, allFileNames, List.filterMap_cons, h, ih]
    · cases hc : copyOk dest <;>
        simp [findFiles, allFileNames, List.filterMap_cons, h, hc, ih]
  | case3 n es' rest ih1 ih2 =>
    simp [findFiles, allFileNames, List.filterMap_append, ih1, ih2]

/-- the `extractAndInstall` loop does not descend: over top-level entries that
are all subdirectories it copies nothing and keeps the accumulator (in
particular the initial `gameName`). -/
theorem mhFold_dirs_id (copyOk : String → Bool)
    (acc : List InstalledFile × String) (entries : List FSEntry)
    (h : (entries.all (fun e => match e with
          | .dir _ _ => true
          | .file _ _ => false)) = true) :
    entries.foldl (mhStep copyOk) acc = acc := by
  induction entries generalizing acc with
  | nil => rfl
  | cons e rest ih =>
    rcases e with ⟨n, j⟩ | ⟨n, es⟩
    · simp at h
    · simp only [List.all_cons, Bool.and_eq_true] at h
      simpa [List.foldl_cons, mhStep] using ih acc h.2

/-- C2 counterexample: the recursive install path (`extractAndInstallKernelos`)
on a bundle nested two directories deep containing `foo.lua`, `bar.manifest`,
`readme.txt` and `info.json` with name `Half-Life` does install the two
recognized files and ignore the others, but the record's display name is the
id `570`, not `Half-Life`: this walk never reads the JSON sidecar, so the
claim's conjunction fails. -/
theorem c2_counterexample_name_not_from_json :
    extractAndInstallKernelos "570" "t0" "z.zip" (extractPathOf "570") true
        ⟨[0x50, 0x4B, 3, 4], .tree [.dir "v1" [.dir "v2"
          [.file "foo.lua" none, .file "bar.manifest" none,
           .file "readme.txt" none, .file "info.json" (some "Half-Life")]]]⟩
        (fun _ => true) ⟨.ok [], [], []⟩ =
      ⟨⟨true, some "570", some "570", none⟩,
       ⟨.ok [⟨"570", "570",
              [⟨pjoin STPLUGIN_PATH "foo.lua", "lua"⟩,
               ⟨pjoin DEPOTCACHE_PATH "bar.manifest", "manifest"⟩], "t0"⟩],
        [pjoin STPLUGIN_PATH "foo.lua", pjoin DEPOTCACHE_PATH "bar.manifest"],
        [extractPathOf "570"]⟩, true⟩ ∧
    ("570" : String) ≠ "Half-Life" := by
  constructor
  · simp only [extractAndInstallKernelos, findFiles]
    decide
  · decide

/-- C2 (amended): on the recursive Kernelos/Manifestor path a nested bundle
installs exactly the recognized files found at any depth — `.lua` to the
plug-in directory, `.manifest` to the depotcache directory — and ignores
unrecognized files, but the recorded display name is always the id: the JSON
sidecar is never consulted on this path.  The ManifestHub path is the one
that reads the JSON `name`, and it scans only the top level of the extracted
folder: when the payload sits strictly below the top level its loop copies
nothing and renames nothing. -/
theorem c2_amended_recursive_install (appId now zipPath extractPath : String)
    (zip : ZipFile) (copyOk : String → Bool) (st : St) (root : List FSEntry)
    (hparse : zip.parsed = .tree root)
    (hvalid : validZip zip.bytes = true)
    (hnonempty : findFiles copyOk root ≠ []) :
    (extractAndInstallKernelos appId now zipPath extractPath true zip copyOk
        st).res = ⟨true, some appId, some appId, none⟩ ∧
    (extractAndInstallKernelos appId now zipPath extractPath true zip copyOk
        st).st.store =
      addToInstalledGames ⟨appId, appId, findFiles copyOk root, now⟩ st.store ∧
    findFiles copyOk root = (allFileNames root).filterMap (fun n =>
      match classifyName n with
      | some dt => if copyOk dt.1 then some ⟨dt.1, dt.2⟩ else none
      | none => none) ∧
    (∀ (acc : List InstalledFile × String) (entries : List FSEntry),
      (entries.all (fun e => match e with
        | .dir _ _ => true
        | .file _ _ => false)) = true →
      entries.foldl (mhStep copyOk) acc = acc) := by
  have hne : (findFiles copyOk root).isEmpty = false := by
    cases hf : findFiles copyOk root with
    | nil => exact absurd hf hnonempty
    | cons a as => rfl
  refine ⟨?_, ?_, findFiles_eq_filterMap copyOk root,
    fun acc entries h => mhFold_dirs_id copyOk acc entries h⟩ <;>
    simp [extractAndInstallKernelos, hparse, hvalid, hne]

theorem c2_amended_recursive_install_witness :
    ((⟨[0x50, 0x4B, 3, 4], .tree [.dir "v1" [.dir "v2"
          [.file "foo.lua" none, .file "bar.manifest" none,
           .file "readme.txt" none, .file "info.json" (some "Half-Life")]]]⟩ :
        ZipFile).parsed = .tree [.dir "v1" [.dir "v2"
          [.file "foo.lua" none, .file "bar.manifest" none,
           .file "readme.txt" none, .file "info.json" (some "Half-Life")]]] ∧
      validZip [0x50, 0x4B, 3, 4] = true ∧
      findFiles (fun _ => true) [.dir "v1" [.dir "v2"
          [.file "foo.lua" none, .file "bar.manifest" none,
           .file "readme.txt" none, .file "info.json" (some "Half-Life")]]] ≠ []) ∧
    (extractAndInstallKernelos "570" "t0" "z.zip" (extractPathOf "570") true
        ⟨[0x50, 0x4B, 3, 4], .tree [.dir "v1" [.dir "v2"
          [.file "foo.lua" none, .file "bar.manifest" none,
           .file "readme.txt" none, .file "info.json" (some "Half-Life")]]]⟩
        (fun _ => true) ⟨.ok [], [], []⟩).res =
      ⟨true, some "570", some "570", none⟩ ∧
    findFiles (fun _ => true) [.dir "v1" [.dir "v2"
        [.file "foo.lua" none, .file "bar.manifest" none,
         .file "readme.txt" none, .file "info.json" (some "Half-Life")]]] =
      (allFileNames [.dir "v1" [.dir "v2"
        [.file "foo.lua" none, .file "bar.manifest" none,
         .file "readme.txt" none, .file "info.json" (some "Half-Life")]]]).filterMap
        (fun n => match classifyName n with
          | some dt => if (fun _ : String => true) dt.1 then some ⟨dt.1, dt.2⟩
            else none
          | none => none) ∧
    ([(.dir "inner" [.file "foo.lua" none] : FSEntry)].foldl
        (mhStep (fun _ => true)) ([], "570")) = ([], "570") := by
  have h := c2_amended_recursive_install "570" "t0" "z.zip" (extractPathOf "570")
    ⟨[0x50, 0x4B, 3, 4], .tree [.dir "v1" [.dir "v2"
      [.file "foo.lua" none, .file "bar.manifest" none,
       .file "readme.txt" none, .file "info.json" (some "Half-Life")]]]⟩
    (fun _ => true) ⟨.ok [], [], []⟩
    [.dir "v1" [.dir "v2"
      [.file "foo.lua" none, .file "bar.manifest" none,
       .file "readme.txt" none, .file "info.json" (some "Half-Life")]]]
    rfl (by decide) (by simp only [findFiles]; decide)
  exact ⟨⟨rfl, by decide, by simp only [findFiles]; decide⟩,
    h.1, h.2.2.1, h.2.2.2 ([], "570") [.dir "inner" [.file "foo.lua" none]]
      (by decide)⟩

/-! Section: C10 -/

/-- C10 counterexample: two ledger records (ids `570` and `571`) list the same
destination path `shared.lua` — which happens whenever two bundles carry a
file of the same name, since destinations are keyed by filename only.
`removeGame "570"` deletes that file from disk even though the surviving
record `571` still lists it: the other record's files are not left
untouched. -/
theorem c10_counterexample_shared_path :
    removeGame "570"
        ⟨.ok [⟨"570", "A", [⟨"shared.lua", "lua"⟩], "t"⟩,
              ⟨"571", "B", [⟨"shared.lua", "lua"⟩], "t"⟩],
         ["shared.lua"], [extractPathOf "570"]⟩ =
      (⟨true, none⟩,
       ⟨.ok [⟨"571", "B", [⟨"shared.lua", "lua"⟩], "t"⟩], [], []⟩) ∧
    (⟨"shared.lua", "lua"⟩ : InstalledFile) ∈
      (⟨"571", "B", [⟨"shared.lua", "lua"⟩], "t"⟩ : InstalledGame).files := by
  decide

/-- C10 (amended): for an id present in the ledger, `removeGame` additionally
deletes the per-id extraction directory `MANIFEST_CACHE/<id>` when it exists
(and other extraction directories survive, since only that one is filtered
out); records of other ids survive in the persisted ledger, and their files
survive on disk provided their listed paths are disjoint from the removed
record's paths — without that proviso a shared path is deleted (see the
counterexample). -/
theorem c10_amended_remove_frame (appId : String) (st : St)
    (game : InstalledGame)
    (h : (getInstalledGames st.store).find? (fun g => g.appId == appId)
          = some game)
    (hdisj : ∀ g' ∈ getInstalledGames st.store, g'.appId ≠ appId →
      ∀ f ∈ g'.files, ¬ f.path ∈ game.files.map (fun x => x.path)) :
    (removeGame appId st).1 = ⟨true, none⟩ ∧
    (removeGame appId st).2.extractDirs =
      st.extractDirs.filter (fun p => !(p == extractPathOf appId)) ∧
    (∀ g' ∈ getInstalledGames st.store, g'.appId ≠ appId →
      g' ∈ getInstalledGames (removeGame appId st).2.store ∧
      ∀ f ∈ g'.files, f.path ∈ st.disk →
        f.path ∈ (removeGame appId st).2.disk) := by
  refine ⟨by simp [removeGame, h], ?_, ?_⟩
  · simp only [removeGame, h]
    by_cases hmem : extractPathOf appId ∈ st.extractDirs
    · simp [hmem]
    · simp only [hmem, if_false]
      refine (List.filter_eq_self.mpr ?_).symm
      intro a ha
      have : a ≠ extractPathOf appId := fun hh => hmem (hh ▸ ha)
      simp [this]
  · intro g' hg' hne
    constructor
    · simp only [removeGame, h, getInstalledGames_ok]
      exact List.mem_filter.mpr ⟨hg', by simp [hne]⟩
    · intro f hf hdisk
      have hnotin : ¬ f.path ∈ game.files.map (fun x => x.path) :=
        hdisj g' hg' hne f hf
      simp only [removeGame, h, foldl_delete_eq_filter]
      refine List.mem_filter.mpr ⟨hdisk, ?_⟩
      simp [hnotin]

theorem c10_amended_remove_frame_witness :
    ((getInstalledGames (StoreFile.ok
        [⟨"570", "A", [⟨"a.lua", "lua"⟩], "t"⟩,
         ⟨"571", "B", [⟨"b.lua", "lua"⟩], "t"⟩])).find?
        (fun g => g.appId == "570") = some ⟨"570", "A", [⟨"a.lua", "lua"⟩], "t"⟩) ∧
    ((removeGame "570"
        ⟨.ok [⟨"570", "A", [⟨"a.lua", "lua"⟩], "t"⟩,
              ⟨"571", "B", [⟨"b.lua", "lua"⟩], "t"⟩],
         ["a.lua", "b.lua"], [extractPathOf "570", extractPathOf "571"]⟩).1 =
        ⟨true, none⟩ ∧
      (removeGame "570"
        ⟨.ok [⟨"570", "A", [⟨"a.lua", "lua"⟩], "t"⟩,
              ⟨"571", "B", [⟨"b.lua", "lua"⟩], "t"⟩],
         ["a.lua", "b.lua"], [extractPathOf "570", extractPathOf "571"]⟩).2.extractDirs =
        ([extractPathOf "570", extractPathOf "571"] : List String).filter
          (fun p => !(p == extractPathOf "570")) ∧
      (∀ g' ∈ getInstalledGames (StoreFile.ok
          [⟨"570", "A", [⟨"a.lua", "lua"⟩], "t"⟩,
           ⟨"571", "B", [⟨"b.lua", "lua"⟩], "t"⟩]), g'.appId ≠ "570" →
        g' ∈ getInstalledGames (removeGame "570"
          ⟨.ok [⟨"570", "A", [⟨"a.lua", "lua"⟩], "t"⟩,
                ⟨"571", "B", [⟨"b.lua", "lua"⟩], "t"⟩],
           ["a.lua", "b.lua"], [extractPathOf "570", extractPathOf "571"]⟩).2.store ∧
        ∀ f ∈ g'.files, f.path ∈ (["a.lua", "b.lua"] : List String) →
          f.path ∈ (removeGame "570"
            ⟨.ok [⟨"570", "A", [⟨"a.lua", "lua"⟩], "t"⟩,
                  ⟨"571", "B", [⟨"b.lua", "lua"⟩], "t"⟩],
             ["a.lua", "b.lua"], [extractPathOf "570", extractPathOf "571"]⟩).2.disk)) :=
  ⟨by decide,
   c10_amended_remove_frame "570"
     ⟨.ok [⟨"570", "A", [⟨"a.lua", "lua"⟩], "t"⟩,
           ⟨"571", "B", [⟨"b.lua", "lua"⟩], "t"⟩],
      ["a.lua", "b.lua"], [extractPathOf "570", extractPathOf "571"]⟩
     ⟨"570", "A", [⟨"a.lua", "lua"⟩], "t"⟩
     (by decide) (by decide)⟩

/-! Section: C8 -/

theorem matchLit_self_append (p l : List Char) : matchLit p (p ++ l) = some l := by
  induction p with
  | nil => rfl
  | cons a ps ih => simp [matchLit, ih]

theorem aubKey_cons : aubKey = '"' :: "AutoUpdateBehavior\"".toList := rfl

theorem matchAUB_none_of_head (c : Char) (xs : List Char) (hc : ¬ c = '"') :
    matchAUB (c :: xs) = none := by
  have hb : (c == '"') = false := beq_eq_false_iff_ne.mpr hc
  simp [matchAUB, aubKey_cons, matchLit, hb]

theorem replaceFuel_nil (f : Nat) : replaceAUBFuel f [] = [] := by
  cases f <;> rfl

theorem replaceFuel_skip (pre : List Char) (m : Nat) (rest : List Char)
    (h : ∀ c ∈ pre, ¬ c = '"') :
    replaceAUBFuel (pre.length + m) (pre ++ rest) =
      pre ++ replaceAUBFuel m rest := by
  induction pre with
  | nil => simp
  | cons c cs ih =>
    have hc := h c (List.mem_cons_self c cs)
    have hnone := matchAUB_none_of_head c (cs ++ rest) hc
    rw [show (c :: cs).length + m = (cs.length + m) + 1 from by
      simp [List.length_cons]; omega]
    simp only [List.cons_append, replaceAUBFuel, List.append_eq, hnone]
    rw [ih (fun x hx => h x (List.mem_cons_of_mem c hx))]

theorem replaceFuel_match (f : Nat) (l r : List Char)
    (h : matchAUB l = some r) :
    replaceAUBFuel (f + 1) l = aubRepl ++ replaceAUBFuel f r := by
  cases l with
  | nil =>
    have hn : matchAUB ([] : List Char) = none := by decide
    rw [hn] at h
    exact Option.noConfusion h
  | cons c cs => simp only [replaceAUBFuel, h]

theorem dropWhile_space_append (w l : List Char)
    (hw : ∀ c ∈ w, isSpaceJS c = true) :
    List.dropWhile isSpaceJS (w ++ '"' :: l) = '"' :: l := by
  induction w with
  | nil =>
    have h0 : isSpaceJS '"' = false := by decide
    simp [List.dropWhile_cons, h0]
  | cons c cs ih =>
    have hc := hw c (List.mem_cons_self c cs)
    simp [List.dropWhile_cons, hc,
      ih (fun x hx => hw x (List.mem_cons_of_mem c hx))]

theorem takeWhile_digit_append (d l : List Char)
    (hd : ∀ c ∈ d, c.isDigit = true) :
    (d ++ '"' :: l).takeWhile Char.isDigit = d ∧
    (d ++ '"' :: l).dropWhile Char.isDigit = '"' :: l := by
  induction d with
  | nil =>
    have h0 : Char.isDigit '"' = false := by decide
    simp [List.takeWhile_cons, List.dropWhile_cons, h0]
  | cons c cs ih =>
    have hc := hd c (List.mem_cons_self c cs)
    have h2 := ih (fun x hx => hd x (List.mem_cons_of_mem c hx))
    simp [List.takeWhile_cons, List.dropWhile_cons, hc, h2.1, h2.2]

theorem matchAUB_at (w d post : List Char)
    (hw : ∀ c ∈ w, isSpaceJS c = true) (hd : d ≠ [])
    (hdd : ∀ c ∈ d, c.isDigit = true) :
    matchAUB (aubKey ++ (w ++ '"' :: (d ++ '"' :: post))) = some post := by
  cases d with
  | nil => exact absurd rfl hd
  | cons e d' =>
    have h1 := matchLit_self_append aubKey (w ++ '"' :: (e :: d' ++ '"' :: post))
    have h2 := dropWhile_space_append w (e :: d' ++ '"' :: post) hw
    have h3 := takeWhile_digit_append (e :: d') post hdd
    simp only [matchAUB, h1, h2, h3.1, h3.2]

/-- the regex rewrite replaces a well-formed digit-valued occurrence of the
key with the canonical tab-tab-value-1 text and preserves everything around
it (stated for quote-free surroundings, where no other match can start). -/
theorem replaceAUB_rewrites (pre w d post : List Char)
    (h1 : ∀ c ∈ pre, ¬ c = '"') (hw : ∀ c ∈ w, isSpaceJS c = true)
    (hd : d ≠ []) (hdd : ∀ c ∈ d, c.isDigit = true)
    (h5 : ∀ c ∈ post, ¬ c = '"') :
    replaceAUB (pre ++ (aubKey ++ (w ++ '"' :: (d ++ '"' :: post)))) =
      pre ++ (aubRepl ++ post) := by
  set M := aubKey ++ (w ++ '"' :: (d ++ '"' :: post)) with hM
  have hmatch : matchAUB M = some post := matchAUB_at w d post hw hd hdd
  have h20 : aubKey.length = 20 := by decide
  have hMl := congrArg List.length hM
  simp only [List.length_append, List.length_cons, h20] at hMl
  unfold replaceAUB
  rw [List.length_append, replaceFuel_skip pre M.length M h1]
  congr 1
  rw [show M.length = (M.length - 1) + 1 from by omega,
    replaceFuel_match (M.length - 1) M post hmatch]
  congr 1
  rw [show M.length - 1 = post.length + (M.length - 1 - post.length) from by
    omega]
  have hskip := replaceFuel_skip post (M.length - 1 - post.length) [] h5
  simpa [replaceFuel_nil] using hskip

theorem containsPat_here (p : Char) (ps x : List Char) :
    containsPat ((p :: ps) ++ x) (p :: ps) = true := by
  rw [List.cons_append]
  simp only [containsPat]
  rw [← List.cons_append, matchLit_self_append]
  simp

theorem containsPat_pre (pre l pat : List Char)
    (h : containsPat l pat = true) : containsPat (pre ++ l) pat = true := by
  induction pre with
  | nil => simpa
  | cons c cs ih => simp [containsPat, ih]

theorem lastBraceSplit_none (l : List Char) (h : ∀ c ∈ l, ¬ c = rbrace) :
    lastBraceSplit l = none := by
  induction l with
  | nil => rfl
  | cons c cs ih =>
    have hc : (c == rbrace) = false :=
      beq_eq_false_iff_ne.mpr (h c (List.mem_cons_self c cs))
    simp [lastBraceSplit, ih (fun x hx => h x (List.mem_cons_of_mem c hx)), hc]

theorem lastBraceSplit_append (b a : List Char) (h : ∀ c ∈ a, ¬ c = rbrace) :
    lastBraceSplit (b ++ rbrace :: a) = some (b, a) := by
  induction b with
  | nil => simp [lastBraceSplit, lastBraceSplit_none a h]
  | cons c cs ih => simp [lastBraceSplit, ih]

/-- C8 counterexample: an `.acf` content in which `AutoUpdateBehavior` is
present but carries the non-digit value `x` is written back completely
unchanged — the regex only matches quoted digit values, so the value is not
rewritten to `1` (the output contains no character `1` at all), contradicting
the claim that whenever the key exists its value is rewritten. -/
theorem c8_counterexample_nondigit_value :
    disableAutoUpdate (some "\x7b\"AutoUpdateBehavior\"\t\"x\"\x7d".toList) =
      some "\x7b\"AutoUpdateBehavior\"\t\"x\"\x7d".toList ∧
    containsPat "\x7b\"AutoUpdateBehavior\"\t\"x\"\x7d".toList aubKey = true ∧
    ¬ '1' ∈ "\x7b\"AutoUpdateBehavior\"\t\"x\"\x7d".toList := by
  refine ⟨?_, by decide, by decide⟩
  decide

/-- C8 (amended): `disableAutoUpdate` is a best-effort total operation on the
convention-named configuration file: an absent file is a no-op; when the file
contains the key with a quoted digit-string value, that occurrence is
rewritten to the constant `"1"` and all surrounding content is preserved
(when the key is present with a non-digit value the content is left
unchanged — see the counterexample); when the key is absent the key-value
pair is appended immediately before the final closing brace. -/
theorem c8_amended_auto_update :
    disableAutoUpdate none = none ∧
    (∀ pre w d post : List Char, (∀ c ∈ pre, ¬ c = '"') →
      (∀ c ∈ w, isSpaceJS c = true) → d ≠ [] → (∀ c ∈ d, c.isDigit = true) →
      (∀ c ∈ post, ¬ c = '"') →
      disableAutoUpdate
          (some (pre ++ (aubKey ++ (w ++ '"' :: (d ++ '"' :: post))))) =
        some (pre ++ (aubRepl ++ post))) ∧
    (∀ b a : List Char, containsPat (b ++ rbrace :: a) aubKey = false →
      (∀ c ∈ a, ¬ c = rbrace) →
      disableAutoUpdate (some (b ++ rbrace :: a)) =
        some (b ++ aubInsert ++ rbrace :: a)) := by
  refine ⟨rfl, ?_, ?_⟩
  · intro pre w d post h1 hw hd hdd h5
    have hcont :
        containsPat (pre ++ (aubKey ++ (w ++ '"' :: (d ++ '"' :: post))))
          aubKey = true := by
      refine containsPat_pre pre _ _ ?_
      have hk := containsPat_here '"' "AutoUpdateBehavior\"".toList
        (w ++ '"' :: (d ++ '"' :: post))
      rw [← aubKey_cons] at hk
      exact hk
    simp only [disableAutoUpdate, hcont, if_true]
    rw [replaceAUB_rewrites pre w d post h1 hw hd hdd h5]
  · intro b a hk hno
    simp [disableAutoUpdate, hk, lastBraceSplit_append b a hno]

theorem c8_amended_auto_update_witness :
    disableAutoUpdate
        (some ("\x7b\n\t".toList ++
          (aubKey ++ ("\t\t".toList ++ '"' :: (['7'] ++ '"' :: "\n\x7d".toList))))) =
      some ("\x7b\n\t".toList ++ (aubRepl ++ "\n\x7d".toList)) ∧
    disableAutoUpdate (some ("\x7b\n".toList ++ rbrace :: [])) =
      some ("\x7b\n".toList ++ aubInsert ++ rbrace :: []) :=
  ⟨c8_amended_auto_update.2.1 "\x7b\n\t".toList "\t\t".toList ['7']
     "\n\x7d".toList (by decide) (by decide) (by decide) (by decide) (by decide),
   c8_amended_auto_update.2.2 "\x7b\n".toList [] (by decide) (by decide)⟩

end ManifestService
